import Mathlib

/-!
Verification development for the sentiment-analysis pipeline in
`19_recurrent_neural_nets/05_sentiment_analysis.ipynb`.

The notebook is glue code around a deep-learning framework: it loads the
pre-tokenized IMDB corpus (`imdb.load_data` with `num_words=20000`,
`oov_char=2`), normalizes review length (`pad_sequences` with
`truncating='pre'`, `padding='pre'`, `maxlen=100`), assembles
`Sequential([Embedding, GRU(32), Dense(1, sigmoid)])`, and trains with
`rnn.fit(..., epochs=100, validation_data=(X_test_padded, y_test),
callbacks=[EarlyStopping(monitor='val_AUC', mode='max', patience=5,
restore_best_weights=True)])`, finally persisting the per-epoch history and
scoring the test split with `roc_auc_score`.

Only the notebook itself is in the repository; the framework routines it
calls are external.  Definitions below that embed those routines are marked
`Modelled from the spec:` and follow the specification's description of their
behavior, instantiated with the exact parameters the notebook passes.
-/

namespace Sentiment

/-- `vocab_size = 20000` in the notebook. -/
def vocab_size : Nat := 20000

/-- `maxlen = 100` in the notebook. -/
def maxlen : Nat := 100

/-- The out-of-vocabulary sentinel passed by the notebook: `oov_char=2`. -/
def oov_char : Nat := 2

/-- Modelled from the spec: one row of the sequence normalizer
(`pad_sequences` with `truncating='pre'`, `padding='pre'`, absent from
`src/`): a review longer than `L` keeps only its last `L` tokens (tokens are
dropped from the front); a shorter one is left-padded with the sentinel `0`
up to length `L`. -/
def padSeq (L : Nat) (review : List Nat) : List Nat :=
  if L ≤ review.length then review.drop (review.length - L)
  else List.replicate (L - review.length) 0 ++ review

/-- Modelled from the spec: `pad_sequences` applied to a collection of
reviews produces the matrix whose `i`-th row is the normalized `i`-th
review. -/
def pad_sequences (L : Nat) (reviews : List (List Nat)) : List (List Nat) :=
  reviews.map (padSeq L)

/-- A fixed pre-tokenized labeled corpus: train and test splits of
(token-sequence, binary-label) pairs.  Labels are booleans
(`true` = positive). -/
structure Corpus where
  train : List (List Nat × Bool)
  test : List (List Nat × Bool)

/-- Modelled from the spec: the loader's vocabulary bound — a token ranked
inside the top `num_words` is kept, any other token is replaced by the fixed
out-of-vocabulary sentinel (`oov_char=2` in the notebook's call). -/
def capToken (num_words : Nat) (t : Nat) : Nat :=
  if t < num_words then t else oov_char

/-- Token capping applied to one review. -/
def capReview (num_words : Nat) (r : List Nat) : List Nat :=
  r.map (capToken num_words)

/-- Modelled from the spec: `imdb.load_data(seed=42, skip_top=0, maxlen=None,
oov_char=2, index_from=3, num_words=vocab_size)` — a pure function of its
parameters and the fixed corpus: every token is capped to the vocabulary
bound, labels are passed through, and no randomness enters beyond the fixed
seed baked into the stored corpus. -/
def load_data (num_words : Nat) (c : Corpus) : Corpus :=
  { train := c.train.map (fun p => (capReview num_words p.1, p.2))
    test := c.test.map (fun p => (capReview num_words p.1, p.2)) }

/-- A small concrete corpus used to instantiate universally quantified
theorems. -/
def sampleCorpus : Corpus :=
  { train := [([1, 30], true)], test := [([3], false)] }

/-- One training-history record: the six per-epoch metrics produced by the
notebook's `rnn.compile(loss='binary_crossentropy', metrics=['accuracy',
AUC(name='AUC')])` together with their validation counterparts.  Metric
values are modelled as rationals. -/
structure EpochRecord where
  loss : ℚ
  accuracy : ℚ
  auc : ℚ
  val_loss : ℚ
  val_accuracy : ℚ
  val_auc : ℚ
deriving DecidableEq

/-- Modelled from the spec: the early-stopping callback's mutable state —
best monitored score seen so far, the parameters captured when it was set,
and the count of consecutive epochs without improvement.  `none` means no
epoch has completed yet. -/
structure ESState (P : Type) where
  best : Option ℚ
  bestW : Option P
  wait : Nat

/-- `patience=5` in the notebook's `EarlyStopping`. -/
def patience : Nat := 5

/-- Modelled from the spec: the improvement test in `mode='max'` — the
monitored score must strictly exceed the best seen so far; any score
improves on an empty history. -/
def improves (best : Option ℚ) (cur : ℚ) : Bool :=
  match best with
  | none => true
  | some b => decide (b < cur)

/-- Modelled from the spec: end-of-epoch bookkeeping of
`EarlyStopping(monitor='val_AUC', mode='max', patience=5,
restore_best_weights=True)` — on improvement record the new best score and
capture the current parameters, resetting the wait counter; otherwise bump
the counter and signal a stop once it reaches the patience. -/
def esUpdate {P : Type} (s : ESState P) (cur : ℚ) (w : P) : ESState P × Bool :=
  if improves s.best cur then
    ({ best := some cur, bestW := some w, wait := 0 }, false)
  else
    ({ s with wait := s.wait + 1 }, decide (patience ≤ s.wait + 1))

/-- Outcome of a training run: the parameters in effect after termination,
the number of completed epochs, the per-epoch history, and whether
termination came from the early-stop policy rather than epoch exhaustion. -/
structure FitResult (P : Type) where
  finalWeights : P
  epochsRun : Nat
  history : List EpochRecord
  stoppedEarly : Bool

/-- The history-free part of a `FitResult`, used to relate loop states. -/
def FitResult.summary {P : Type} (r : FitResult P) : P × Nat × Bool :=
  (r.finalWeights, r.epochsRun, r.stoppedEarly)

/-- Modelled from the spec: the epoch loop of `rnn.fit`.  Actual gradient
descent is the framework's, so an epoch is an oracle: `metrics e` is the
history record logged at the end of epoch `e` (0-based) and `wts e` the
parameter state after that epoch's updates.  Each iteration completes one
epoch, appends its record, and runs the early-stop check on `val_AUC`; on a
stop the best-seen parameters are restored, and when the epoch budget is
exhausted the last parameters stay in effect. -/
def fitFrom {P : Type} (metrics : Nat → EpochRecord) (wts : Nat → P) :
    Nat → Nat → P → ESState P → FitResult P
  | 0, epoch, curW, _ => ⟨curW, epoch, [], false⟩
  | fuel + 1, epoch, _, es =>
    let w := wts epoch
    let r := metrics epoch
    let upd := esUpdate es r.val_auc w
    if upd.2 then
      ⟨(upd.1.bestW).getD w, epoch + 1, [r], true⟩
    else
      let rest := fitFrom metrics wts fuel (epoch + 1) w upd.1
      ⟨rest.finalWeights, rest.epochsRun, r :: rest.history, rest.stoppedEarly⟩

/-- `epochs=100` in the notebook's `rnn.fit` call. -/
def max_epochs : Nat := 100

/-- The callback state before the first epoch. -/
def initES {P : Type} : ESState P := ⟨none, none, 0⟩

/-- Modelled from the spec: `rnn.fit(..., epochs=100,
callbacks=[early_stopping])` starting from initial parameters `w0`. -/
def fit {P : Type} (metrics : Nat → EpochRecord) (wts : Nat → P) (w0 : P) :
    FitResult P :=
  fitFrom metrics wts max_epochs 0 w0 initES

/-- One row of the persisted metrics table: the six metric values of one
epoch, in the column order of `pd.DataFrame(training.history)`. -/
def recordRow (r : EpochRecord) : List ℚ :=
  [r.loss, r.accuracy, r.auc, r.val_loss, r.val_accuracy, r.val_auc]

/-- Modelled from the spec: `pd.DataFrame(training.history).to_csv(...)` —
a flat table with one row per completed epoch, in epoch order. -/
def historyCsv (hist : List EpochRecord) : List (List ℚ) :=
  hist.map recordRow

/-- The six column names of the persisted table. -/
def csvColumns : List String :=
  ["loss", "accuracy", "AUC", "val_loss", "val_accuracy", "val_AUC"]

/-- The notebook's data preparation: load both splits (cell calling
`imdb.load_data`), then normalize both with `pad_sequences` (the
`X_train_padded` / `X_test_padded` cell). -/
structure Prepared where
  xTrainPadded : List (List Nat)
  yTrain : List Bool
  xTestPadded : List (List Nat)
  yTest : List Bool

/-- The four arrays the notebook derives before training. -/
def prepare (N L : Nat) (c : Corpus) : Prepared :=
  { xTrainPadded := pad_sequences L ((load_data N c).train.map Prod.fst)
    yTrain := (load_data N c).train.map Prod.snd
    xTestPadded := pad_sequences L ((load_data N c).test.map Prod.fst)
    yTest := (load_data N c).test.map Prod.snd }

/-- The validation pair handed to training:
`rnn.fit(..., validation_data=(X_test_padded, y_test), ...)`. -/
def fitValidationData (N L : Nat) (c : Corpus) : List (List Nat) × List Bool :=
  ((prepare N L c).xTestPadded, (prepare N L c).yTest)

/-- The pair used for the final reported score:
`y_score = rnn.predict(X_test_padded)` then
`roc_auc_score(y_score=y_score.squeeze(), y_true=y_test)`. -/
def finalScoreData (N L : Nat) (c : Corpus) : List (List Nat) × List Bool :=
  ((prepare N L c).xTestPadded, (prepare N L c).yTest)

/-- Modelled from the spec: the forward pass of
`Sequential([Embedding(input_dim=vocab_size, output_dim=embedding_size,
input_length=maxlen), GRU(32, ...), Dense(1, sigmoid)])` on one row.  The
`Embedding` layer is built without `mask_zero`, so its default (no masking)
applies: every position of the row — the pad sentinel `0` included — is
embedded by `emb` and folded left-to-right into the recurrent state by
`step`. -/
def encode {V H : Type} (emb : Nat → V) (step : H → V → H) (h0 : H)
    (row : List Nat) : H :=
  row.foldl (fun h t => step h (emb t)) h0

/-- A synthetic validation-score sequence peaking at its second epoch, used
to instantiate the early-stop theorem. -/
def scoreW (e : Nat) : ℚ :=
  if e = 0 then 5 else if e = 1 then 10 else 1

/-- A synthetic epoch oracle whose monitored `val_auc` follows `scoreW`. -/
def metricsW (e : Nat) : EpochRecord :=
  ⟨1, 1, 1, 1, 1, scoreW e⟩

end Sentiment

namespace Sentiment

/-- C2 (helper shape): nothing yet, theorems follow the definitions. -/
theorem pad_sequences_length (L : Nat) (reviews : List (List Nat)) :
    (pad_sequences L reviews).length = reviews.length := by
  simp [pad_sequences]

/-- The `i`-th row of the normalized matrix is the normalized `i`-th review. -/
theorem pad_sequences_get (L : Nat) (reviews : List (List Nat)) (i : Nat)
    (hi : i < reviews.length) (hrow : i < (pad_sequences L reviews).length) :
    (pad_sequences L reviews).get ⟨i, hrow⟩ = padSeq L (reviews.get ⟨i, hi⟩) := by
  simp [pad_sequences]

/-- Every entry of a normalized row is the pad sentinel or an entry of the
original review. -/
theorem mem_padSeq (L : Nat) (r : List Nat) (t : Nat) (ht : t ∈ padSeq L r) :
    t = 0 ∨ t ∈ r := by
  unfold padSeq at ht
  by_cases h : L ≤ r.length
  · rw [if_pos h] at ht
    exact Or.inr (List.drop_subset _ r ht)
  · rw [if_neg h] at ht
    rcases List.mem_append.mp ht with h0 | hr
    · exact Or.inl (List.eq_of_mem_replicate h0)
    · exact Or.inr hr

/-- C2: for a review longer than the target length `L`, the corresponding
row of the normalizer's output matrix has length `L` and is exactly the
review's last `L` tokens in their original order: the review splits as its
first `length − L` tokens followed by the output row. -/
theorem long_review_row_is_tail (L : Nat) (reviews : List (List Nat)) (i : Nat)
    (hi : i < reviews.length) (hlong : L < (reviews.get ⟨i, hi⟩).length) :
    ∃ hrow : i < (pad_sequences L reviews).length,
      ((pad_sequences L reviews).get ⟨i, hrow⟩).length = L ∧
      reviews.get ⟨i, hi⟩ =
        (reviews.get ⟨i, hi⟩).take ((reviews.get ⟨i, hi⟩).length - L) ++
          (pad_sequences L reviews).get ⟨i, hrow⟩ := by
  have hrow : i < (pad_sequences L reviews).length := by
    rw [pad_sequences_length]; exact hi
  refine ⟨hrow, ?_, ?_⟩
  · rw [pad_sequences_get L reviews i hi hrow]
    unfold padSeq
    rw [if_pos (le_of_lt hlong), List.length_drop]
    omega
  · rw [pad_sequences_get L reviews i hi hrow]
    unfold padSeq
    rw [if_pos (le_of_lt hlong), List.take_append_drop]

/-- Witness for C2 at `L = 2`, reviews `[[5, 6, 7]]`, row `0`. -/
theorem long_review_row_is_tail_witness :
    (0 < ([[5, 6, 7]] : List (List Nat)).length) ∧
    (2 < (([[5, 6, 7]] : List (List Nat)).get ⟨0, by decide⟩).length) ∧
    (∃ hrow : 0 < (pad_sequences 2 [[5, 6, 7]]).length,
      ((pad_sequences 2 [[5, 6, 7]]).get ⟨0, hrow⟩).length = 2 ∧
      ([[5, 6, 7]] : List (List Nat)).get ⟨0, by decide⟩ =
        (([[5, 6, 7]] : List (List Nat)).get ⟨0, by decide⟩).take
            ((([[5, 6, 7]] : List (List Nat)).get ⟨0, by decide⟩).length - 2) ++
          (pad_sequences 2 [[5, 6, 7]]).get ⟨0, hrow⟩) :=
  ⟨by decide, by decide, long_review_row_is_tail 2 [[5, 6, 7]] 0 (by decide) (by decide)⟩

/-- Taking the length of a replicate block at the front of an append
recovers the block. -/
theorem replicate_append_take (n : Nat) (xs : List Nat) :
    (List.replicate n (0 : Nat) ++ xs).take n = List.replicate n 0 := by
  simp

/-- Dropping the length of a replicate block at the front of an append
recovers the tail. -/
theorem replicate_append_drop (n : Nat) (xs : List Nat) :
    (List.replicate n (0 : Nat) ++ xs).drop n = xs := by
  simp

/-- C3: for a review strictly shorter than `L`, the corresponding row has
length `L`, its first `L − len` entries are the pad sentinel `0`, and its
remaining `len` entries are the original tokens in order. -/
theorem short_review_row_left_padded (L : Nat) (reviews : List (List Nat)) (i : Nat)
    (hi : i < reviews.length) (hshort : (reviews.get ⟨i, hi⟩).length < L) :
    ∃ hrow : i < (pad_sequences L reviews).length,
      ((pad_sequences L reviews).get ⟨i, hrow⟩).length = L ∧
      ((pad_sequences L reviews).get ⟨i, hrow⟩).take (L - (reviews.get ⟨i, hi⟩).length) =
        List.replicate (L - (reviews.get ⟨i, hi⟩).length) 0 ∧
      ((pad_sequences L reviews).get ⟨i, hrow⟩).drop (L - (reviews.get ⟨i, hi⟩).length) =
        reviews.get ⟨i, hi⟩ := by
  have hrow : i < (pad_sequences L reviews).length := by
    rw [pad_sequences_length]; exact hi
  have hnot : ¬ L ≤ (reviews.get ⟨i, hi⟩).length := by omega
  refine ⟨hrow, ?_, ?_, ?_⟩
  · rw [pad_sequences_get L reviews i hi hrow]
    unfold padSeq
    rw [if_neg hnot]
    simp only [List.length_append, List.length_replicate]
    omega
  · rw [pad_sequences_get L reviews i hi hrow]
    unfold padSeq
    rw [if_neg hnot, replicate_append_take]
  · rw [pad_sequences_get L reviews i hi hrow]
    unfold padSeq
    rw [if_neg hnot, replicate_append_drop]

/-- Witness for C3 at `L = 4`, reviews `[[8, 9]]`, row `0`. -/
theorem short_review_row_left_padded_witness :
    (0 < ([[8, 9]] : List (List Nat)).length) ∧
    ((([[8, 9]] : List (List Nat)).get ⟨0, by decide⟩).length < 4) ∧
    (∃ hrow : 0 < (pad_sequences 4 [[8, 9]]).length,
      ((pad_sequences 4 [[8, 9]]).get ⟨0, hrow⟩).length = 4 ∧
      ((pad_sequences 4 [[8, 9]]).get ⟨0, hrow⟩).take
          (4 - (([[8, 9]] : List (List Nat)).get ⟨0, by decide⟩).length) =
        List.replicate (4 - (([[8, 9]] : List (List Nat)).get ⟨0, by decide⟩).length) 0 ∧
      ((pad_sequences 4 [[8, 9]]).get ⟨0, hrow⟩).drop
          (4 - (([[8, 9]] : List (List Nat)).get ⟨0, by decide⟩).length) =
        ([[8, 9]] : List (List Nat)).get ⟨0, by decide⟩) :=
  ⟨by decide, by decide, short_review_row_left_padded 4 [[8, 9]] 0 (by decide) (by decide)⟩

/-- Every token produced by the loader's capping lies below the vocabulary
bound, provided the out-of-vocabulary sentinel itself does. -/
theorem mem_capReview_lt (N : Nat) (hN : oov_char < N) (r : List Nat) (t : Nat)
    (ht : t ∈ capReview N r) : t < N := by
  rcases List.mem_map.mp ht with ⟨s, _, rfl⟩
  unfold capToken
  by_cases h : s < N
  · rw [if_pos h]; exact h
  · rw [if_neg h]; exact hN

/-- C4: every entry of the normalized matrix built from either split of the
loader's output lies in `[0, N)` (as a natural number, nonnegativity is
automatic), provided the out-of-vocabulary sentinel `2` is below the bound —
true in the notebook's configuration `N = 20000`. -/
theorem token_range_invariant (N L : Nat) (c : Corpus) (hN : oov_char < N)
    (row : List Nat)
    (hrow : row ∈ pad_sequences L ((load_data N c).train.map Prod.fst) ∨
            row ∈ pad_sequences L ((load_data N c).test.map Prod.fst))
    (t : Nat) (ht : t ∈ row) : t < N := by
  have hzero : (0 : Nat) < N := lt_of_le_of_lt (Nat.zero_le _) hN
  have key : ∀ r : List Nat, row = padSeq L (capReview N r) → t < N := by
    intro r hr
    rcases mem_padSeq L (capReview N r) t (hr ▸ ht) with h0 | hmem
    · exact h0 ▸ hzero
    · exact mem_capReview_lt N hN r t hmem
  rcases hrow with h | h
  · rcases List.mem_map.mp h with ⟨r, hrmem, rfl⟩
    rcases List.mem_map.mp hrmem with ⟨p, hpmem, rfl⟩
    rcases List.mem_map.mp hpmem with ⟨q, _, rfl⟩
    exact key q.1 rfl
  · rcases List.mem_map.mp h with ⟨r, hrmem, rfl⟩
    rcases List.mem_map.mp hrmem with ⟨p, hpmem, rfl⟩
    rcases List.mem_map.mp hpmem with ⟨q, _, rfl⟩
    exact key q.1 rfl

/-- Witness for C4 on `sampleCorpus` with `N = 5`, `L = 3`: the capped train
review `[1, 30] ↦ [1, 2]` pads to `[0, 1, 2]`, whose entry `1` is below the
bound. -/
theorem token_range_invariant_witness :
    oov_char < 5 ∧
    ([0, 1, 2] ∈ pad_sequences 3 ((load_data 5 sampleCorpus).train.map Prod.fst) ∨
     [0, 1, 2] ∈ pad_sequences 3 ((load_data 5 sampleCorpus).test.map Prod.fst)) ∧
    (1 : Nat) ∈ ([0, 1, 2] : List Nat) ∧ (1 : Nat) < 5 :=
  ⟨by decide, Or.inl (by decide), by decide,
    token_range_invariant 5 3 sampleCorpus (by decide) [0, 1, 2]
      (Or.inl (by decide)) 1 (by decide)⟩

/-- C7: the loader is a pure function of its parameters and the fixed
corpus, so two invocations with identical parameters return identical
token sequences and labels for both splits. -/
theorem loader_deterministic (N₁ N₂ : Nat) (c₁ c₂ : Corpus)
    (hN : N₁ = N₂) (hc : c₁ = c₂) :
    (load_data N₁ c₁).train = (load_data N₂ c₂).train ∧
    (load_data N₁ c₁).test = (load_data N₂ c₂).test := by
  subst hN; subst hc; exact ⟨rfl, rfl⟩

/-- Witness for C7 at `N = 20000` on `sampleCorpus`. -/
theorem loader_deterministic_witness :
    (20000 : Nat) = 20000 ∧ sampleCorpus = sampleCorpus ∧
    ((load_data 20000 sampleCorpus).train = (load_data 20000 sampleCorpus).train ∧
     (load_data 20000 sampleCorpus).test = (load_data 20000 sampleCorpus).test) :=
  ⟨rfl, rfl, loader_deterministic 20000 20000 sampleCorpus sampleCorpus rfl rfl⟩

/-- Unfolding of one iteration of the epoch loop. -/
theorem fitFrom_succ {P : Type} (m : Nat → EpochRecord) (w : Nat → P)
    (fuel epoch : Nat) (curW : P) (es : ESState P) :
    fitFrom m w (fuel + 1) epoch curW es =
      if (esUpdate es (m epoch).val_auc (w epoch)).2 then
        ⟨((esUpdate es (m epoch).val_auc (w epoch)).1.bestW).getD (w epoch),
          epoch + 1, [m epoch], true⟩
      else
        ⟨(fitFrom m w fuel (epoch + 1) (w epoch)
            (esUpdate es (m epoch).val_auc (w epoch)).1).finalWeights,
          (fitFrom m w fuel (epoch + 1) (w epoch)
            (esUpdate es (m epoch).val_auc (w epoch)).1).epochsRun,
          m epoch ::
            (fitFrom m w fuel (epoch + 1) (w epoch)
              (esUpdate es (m epoch).val_auc (w epoch)).1).history,
          (fitFrom m w fuel (epoch + 1) (w epoch)
            (esUpdate es (m epoch).val_auc (w epoch)).1).stoppedEarly⟩ := rfl

/-- The loop never runs past its fuel, and a run that does not stop early
consumes the whole fuel. -/
theorem fitFrom_bound {P : Type} (m : Nat → EpochRecord) (w : Nat → P) :
    ∀ fuel epoch (curW : P) (es : ESState P),
      (fitFrom m w fuel epoch curW es).epochsRun ≤ epoch + fuel ∧
      ((fitFrom m w fuel epoch curW es).stoppedEarly = true ∨
        (fitFrom m w fuel epoch curW es).epochsRun = epoch + fuel) := by
  intro fuel
  induction fuel with
  | zero => intro epoch curW es; exact ⟨Nat.le_refl _, Or.inr rfl⟩
  | succ f ih =>
    intro epoch curW es
    rw [fitFrom_succ]
    by_cases h : (esUpdate es (m epoch).val_auc (w epoch)).2
    · rw [if_pos h]
      refine ⟨?_, Or.inl rfl⟩
      show epoch + 1 ≤ epoch + (f + 1)
      omega
    · rw [if_neg h]
      obtain ⟨h1, h2⟩ :=
        ih (epoch + 1) (w epoch) (esUpdate es (m epoch).val_auc (w epoch)).1
      constructor
      · show (fitFrom m w f (epoch + 1) (w epoch)
            (esUpdate es (m epoch).val_auc (w epoch)).1).epochsRun ≤ epoch + (f + 1)
        omega
      · show (fitFrom m w f (epoch + 1) (w epoch)
              (esUpdate es (m epoch).val_auc (w epoch)).1).stoppedEarly = true ∨
          (fitFrom m w f (epoch + 1) (w epoch)
              (esUpdate es (m epoch).val_auc (w epoch)).1).epochsRun = epoch + (f + 1)
        rcases h2 with hs | he
        · exact Or.inl hs
        · right; omega

/-- C5: every run of the training loop terminates — either the early-stop
policy fires, or the hard maximum of `epochs=100` is exhausted — and no run
completes more than `max_epochs = 100` epochs. -/
theorem training_terminates {P : Type} (m : Nat → EpochRecord) (w : Nat → P)
    (w0 : P) :
    (fit m w w0).epochsRun ≤ max_epochs ∧
    ((fit m w w0).stoppedEarly = true ∨ (fit m w w0).epochsRun = max_epochs) := by
  have h := fitFrom_bound m w max_epochs 0 w0 initES
  simpa [fit] using h

/-- The loop's epoch counter never moves backwards. -/
theorem fitFrom_epoch_le {P : Type} (m : Nat → EpochRecord) (w : Nat → P) :
    ∀ fuel epoch (curW : P) (es : ESState P),
      epoch ≤ (fitFrom m w fuel epoch curW es).epochsRun := by
  intro fuel
  induction fuel with
  | zero => intro epoch curW es; exact Nat.le_refl _
  | succ f ih =>
    intro epoch curW es
    rw [fitFrom_succ]
    by_cases h : (esUpdate es (m epoch).val_auc (w epoch)).2
    · rw [if_pos h]; exact Nat.le_succ _
    · rw [if_neg h]
      have := ih (epoch + 1) (w epoch) (esUpdate es (m epoch).val_auc (w epoch)).1
      exact le_trans (Nat.le_succ _) this

/-- The history collected from epoch `epoch` onward is exactly the oracle's
records for the epochs the run completes, in epoch order. -/
theorem fitFrom_history {P : Type} (m : Nat → EpochRecord) (w : Nat → P) :
    ∀ fuel epoch (curW : P) (es : ESState P),
      (fitFrom m w fuel epoch curW es).history =
        (List.range' epoch ((fitFrom m w fuel epoch curW es).epochsRun - epoch)).map m := by
  intro fuel
  induction fuel with
  | zero => intro epoch curW es; simp [fitFrom]
  | succ f ih =>
    intro epoch curW es
    rw [fitFrom_succ]
    by_cases h : (esUpdate es (m epoch).val_auc (w epoch)).2
    · rw [if_pos h]
      show [m epoch] = (List.range' epoch (epoch + 1 - epoch)).map m
      rw [Nat.add_sub_cancel_left]
      simp [List.range'_one]
    · rw [if_neg h]
      have hle := fitFrom_epoch_le m w f (epoch + 1) (w epoch)
        (esUpdate es (m epoch).val_auc (w epoch)).1
      have hrange :
          (fitFrom m w f (epoch + 1) (w epoch)
              (esUpdate es (m epoch).val_auc (w epoch)).1).epochsRun - epoch =
            ((fitFrom m w f (epoch + 1) (w epoch)
              (esUpdate es (m epoch).val_auc (w epoch)).1).epochsRun - (epoch + 1)) + 1 := by
        omega
      show m epoch ::
          (fitFrom m w f (epoch + 1) (w epoch)
            (esUpdate es (m epoch).val_auc (w epoch)).1).history =
        (List.range' epoch
          ((fitFrom m w f (epoch + 1) (w epoch)
            (esUpdate es (m epoch).val_auc (w epoch)).1).epochsRun - epoch)).map m
      rw [hrange, List.range'_succ, List.map_cons]
      exact congrArg (List.cons (m epoch))
        (ih (epoch + 1) (w epoch) (esUpdate es (m epoch).val_auc (w epoch)).1)

/-- C6: exactly one history record is appended per completed epoch, in epoch
order — the run's history is the oracle's records for epochs
`0, …, epochsRun − 1` — and the persisted table has one row per completed
epoch with exactly the six metric columns. -/
theorem history_one_record_per_epoch {P : Type} (m : Nat → EpochRecord)
    (w : Nat → P) (w0 : P) :
    (fit m w w0).history = (List.range (fit m w w0).epochsRun).map m ∧
    (historyCsv (fit m w w0).history).length = (fit m w w0).epochsRun ∧
    ∀ r : EpochRecord, (recordRow r).length = csvColumns.length := by
  have hh : (fit m w w0).history =
      (List.range' 0 ((fit m w w0).epochsRun - 0)).map m :=
    fitFrom_history m w max_epochs 0 w0 initES
  have hh' : (fit m w w0).history = (List.range (fit m w w0).epochsRun).map m := by
    rw [hh, List.range_eq_range', Nat.sub_zero]
  refine ⟨hh', ?_, ?_⟩
  · rw [hh']
    simp [historyCsv]
  · intro r
    simp [recordRow, csvColumns]

/-- C9: the validation pair handed to `rnn.fit` is the very pair later used
for the final reported score — padded test matrix and test labels — so the
per-epoch validation metrics and the final score are computed over
identical data, with no third held-out set anywhere in the pipeline. -/
theorem validation_data_equals_final_score_data (N L : Nat) (c : Corpus) :
    fitValidationData N L c = finalScoreData N L c := rfl

/-- An improving epoch records the new best score and parameters and the
run continues. -/
theorem fitFrom_step_improve {P : Type} (m : Nat → EpochRecord) (w : Nat → P)
    (fuel epoch : Nat) (curW : P) (es : ESState P)
    (h : improves es.best ((m epoch).val_auc) = true) :
    (fitFrom m w (fuel + 1) epoch curW es).summary =
      (fitFrom m w fuel (epoch + 1) (w epoch)
        ⟨some ((m epoch).val_auc), some (w epoch), 0⟩).summary := by
  have hupd : esUpdate es ((m epoch).val_auc) (w epoch) =
      (⟨some ((m epoch).val_auc), some (w epoch), 0⟩, false) := by
    unfold esUpdate
    rw [if_pos h]
  rw [fitFrom_succ, hupd]
  rfl

/-- A non-improving epoch under the patience threshold only bumps the wait
counter. -/
theorem fitFrom_step_stay {P : Type} (m : Nat → EpochRecord) (w : Nat → P)
    (fuel epoch : Nat) (curW : P) (b : ℚ) (bw : Option P) (wt : Nat)
    (h : improves (some b) ((m epoch).val_auc) = false) (hw : wt + 1 < patience) :
    (fitFrom m w (fuel + 1) epoch curW ⟨some b, bw, wt⟩).summary =
      (fitFrom m w fuel (epoch + 1) (w epoch) ⟨some b, bw, wt + 1⟩).summary := by
  have hstop : decide (patience ≤ wt + 1) = false := decide_eq_false (by omega)
  have hupd : esUpdate ⟨some b, bw, wt⟩ ((m epoch).val_auc) (w epoch) =
      (⟨some b, bw, wt + 1⟩, false) := by
    unfold esUpdate
    rw [if_neg (by rw [h]; simp), hstop]
  rw [fitFrom_succ, hupd]
  rfl

/-- A non-improving epoch that exhausts the patience stops the run and
restores the captured best parameters. -/
theorem fitFrom_step_stop {P : Type} (m : Nat → EpochRecord) (w : Nat → P)
    (fuel epoch : Nat) (curW : P) (b : ℚ) (bw : P) (wt : Nat)
    (h : improves (some b) ((m epoch).val_auc) = false) (hw : patience ≤ wt + 1) :
    (fitFrom m w (fuel + 1) epoch curW ⟨some b, some bw, wt⟩).summary =
      (bw, epoch + 1, true) := by
  have hstop : decide (patience ≤ wt + 1) = true := decide_eq_true hw
  have hupd : esUpdate ⟨some b, some bw, wt⟩ ((m epoch).val_auc) (w epoch) =
      (⟨some b, some bw, wt + 1⟩, true) := by
    unfold esUpdate
    rw [if_neg (by rw [h]; simp), hstop]
  rw [fitFrom_succ, hupd]
  rfl

/-- Plateau phase: from a state holding best score `b` and captured
parameters `bw`, if the next `c` epochs (completing the patience budget)
never exceed `b`, the run stops after exactly those `c` epochs and restores
`bw`. -/
theorem fitFrom_plateau {P : Type} (m : Nat → EpochRecord) (w : Nat → P)
    (b : ℚ) (bw : P) :
    ∀ c : Nat, 1 ≤ c → ∀ (wt fuel epoch : Nat) (curW : P),
      wt + c = patience → c ≤ fuel →
      (∀ j, epoch ≤ j → j < epoch + c → (m j).val_auc ≤ b) →
      (fitFrom m w fuel epoch curW ⟨some b, some bw, wt⟩).summary =
        (bw, epoch + c, true) := by
  intro c
  induction c with
  | zero => intro hc; exact absurd hc (by omega)
  | succ c ih =>
    intro _ wt fuel epoch curW hpat hfuel hscore
    obtain ⟨f, rfl⟩ : ∃ f, fuel = f + 1 := ⟨fuel - 1, by omega⟩
    have hle : (m epoch).val_auc ≤ b := hscore epoch (le_refl _) (by omega)
    have hnoimp : improves (some b) ((m epoch).val_auc) = false := by
      unfold improves
      simp [not_lt.mpr hle]
    cases c with
    | zero =>
      have hw : patience ≤ wt + 1 := by omega
      rw [fitFrom_step_stop m w f epoch curW b bw wt hnoimp hw]
    | succ c' =>
      have hw : wt + 1 < patience := by omega
      rw [fitFrom_step_stay m w f epoch curW b (some bw) wt hnoimp hw]
      have hrec := ih (by omega) (wt + 1) f (epoch + 1) (w epoch) (by omega) (by omega)
        (fun j hj1 hj2 => hscore j (by omega) (by omega))
      have harith : epoch + 1 + (c' + 1) = epoch + (c' + 1 + 1) := by omega
      rw [hrec, harith]

/-- Rising phase: while the monitored score strictly increases through the
first `k` epochs, the loop's outcome agrees with the run that starts just
after epoch `j` with the best set to epoch `j`'s score and parameters. -/
theorem fit_rising {P : Type} (m : Nat → EpochRecord) (w : Nat → P) (w0 : P)
    (k : Nat) (hkmax : k ≤ max_epochs)
    (hmono : ∀ i, i + 1 < k → (m i).val_auc < (m (i + 1)).val_auc) :
    ∀ j, j + 1 ≤ k →
      (fit m w w0).summary =
        (fitFrom m w (max_epochs - (j + 1)) (j + 1) (w j)
          ⟨some ((m j).val_auc), some (w j), 0⟩).summary := by
  intro j
  induction j with
  | zero =>
    intro _
    exact fitFrom_step_improve m w (max_epochs - 1) 0 w0 initES rfl
  | succ j ihj =>
    intro hj
    have hprev := ihj (by omega)
    have himp : improves (some ((m j).val_auc)) ((m (j + 1)).val_auc) = true := by
      have hlt := hmono j (by omega)
      unfold improves
      simp [hlt]
    have hfuel : max_epochs - (j + 1) = (max_epochs - (j + 2)) + 1 := by omega
    rw [hprev, hfuel]
    exact fitFrom_step_improve m w (max_epochs - (j + 2)) (j + 1) (w j)
      ⟨some ((m j).val_auc), some (w j), 0⟩ himp

/-- Componentwise reading of a summary equation. -/
theorem summary_eq_components {P : Type} (r : FitResult P) (p : P) (n : Nat)
    (bb : Bool) (h : r.summary = (p, n, bb)) :
    r.epochsRun = n ∧ r.finalWeights = p ∧ r.stoppedEarly = bb :=
  ⟨congrArg (fun t => t.2.1) h, congrArg (fun t => t.1) h,
    congrArg (fun t => t.2.2) h⟩

/-- Combined rising and plateau phases: the loop's summary under the C1
hypotheses. -/
theorem fit_summary_early_stop {P : Type} (m : Nat → EpochRecord)
    (w : Nat → P) (w0 : P) (k : Nat) (hk : 1 ≤ k)
    (hkp : k + patience ≤ max_epochs)
    (hmono : ∀ i, i + 1 < k → (m i).val_auc < (m (i + 1)).val_auc)
    (hpeak : ∀ j, k ≤ j → j < k + patience →
      (m j).val_auc ≤ (m (k - 1)).val_auc) :
    (fit m w w0).summary = (w (k - 1), k + patience, true) := by
  have hk1 : k - 1 + 1 = k := by omega
  have hrise := fit_rising m w w0 k (by omega) hmono (k - 1) (by omega)
  rw [hk1] at hrise
  have hplateau := fitFrom_plateau m w ((m (k - 1)).val_auc) (w (k - 1))
    patience (by decide) 0 (max_epochs - k) k (w (k - 1)) (by omega) (by omega)
    (fun j hj1 hj2 => hpeak j hj1 hj2)
  rw [hrise]
  exact hplateau

/-- C1: if the monitored validation score strictly rises through epoch `k`
(1-based) and then fails to exceed epoch `k`'s score for the next
`patience = 5` consecutive epochs, the run stops after exactly
`k + patience` completed epochs via the early-stop policy, and the
parameters in effect after termination are those captured at epoch `k`,
not those of the most recent epoch. -/
theorem early_stop_restores_best {P : Type} (m : Nat → EpochRecord)
    (w : Nat → P) (w0 : P) (k : Nat) (hk : 1 ≤ k)
    (hkp : k + patience ≤ max_epochs)
    (hmono : ∀ i, i + 1 < k → (m i).val_auc < (m (i + 1)).val_auc)
    (hpeak : ∀ j, k ≤ j → j < k + patience →
      (m j).val_auc ≤ (m (k - 1)).val_auc) :
    (fit m w w0).epochsRun = k + patience ∧
    (fit m w w0).finalWeights = w (k - 1) ∧
    (fit m w w0).stoppedEarly = true :=
  summary_eq_components (fit m w w0) (w (k - 1)) (k + patience) true
    (fit_summary_early_stop m w w0 k hk hkp hmono hpeak)

/-- Witness for C1 on the synthetic score sequence `5, 10, 1, 1, …` with
`k = 2`: the run stops after `2 + patience = 7` epochs and restores the
epoch-2 parameters. -/
theorem early_stop_restores_best_witness :
    (1 ≤ 2) ∧ (2 + patience ≤ max_epochs) ∧
    (∀ i, i + 1 < 2 → (metricsW i).val_auc < (metricsW (i + 1)).val_auc) ∧
    (∀ j, 2 ≤ j → j < 2 + patience →
      (metricsW j).val_auc ≤ (metricsW (2 - 1)).val_auc) ∧
    ((fit metricsW (fun e => e) 777).epochsRun = 2 + patience ∧
     (fit metricsW (fun e => e) 777).finalWeights = (fun e : Nat => e) (2 - 1) ∧
     (fit metricsW (fun e => e) 777).stoppedEarly = true) := by
  have hmono : ∀ i, i + 1 < 2 →
      (metricsW i).val_auc < (metricsW (i + 1)).val_auc := by
    intro i hi
    have h0 : i = 0 := by omega
    subst h0
    norm_num [metricsW, scoreW]
  have hpeak : ∀ j, 2 ≤ j → j < 2 + patience →
      (metricsW j).val_auc ≤ (metricsW (2 - 1)).val_auc := by
    intro j h2 h7
    have hj0 : ¬ (j = 0) := by omega
    have hj1 : ¬ (j = 1) := by omega
    norm_num [metricsW, scoreW, hj0, hj1]
  exact ⟨by norm_num, by decide, hmono, hpeak,
    early_stop_restores_best metricsW (fun e => e) 777 2 (by norm_num)
      (by decide) hmono hpeak⟩

/-- C10: the embedding is unmasked, so the encoder consumes every position
of a normalized row: the forward pass on `padSeq L row` first folds the
`L − len` pad sentinels through the embedding and the recurrent step, then
the surviving tokens; and the padding genuinely influences the result — for
a concrete embedding and step function, a row with one leading pad encodes
differently from the unpadded row. -/
theorem pads_embedded_and_consumed :
    (∀ (V H : Type) (emb : Nat → V) (step : H → V → H) (h0 : H) (L : Nat)
        (row : List Nat),
      encode emb step h0 (padSeq L row) =
        encode emb step (encode emb step h0 (List.replicate (L - row.length) 0))
          (row.drop (row.length - L))) ∧
    (∃ p : Nat,
      encode (fun t : Nat => t) (fun h v : Nat => h + v + 1) 0
          (List.replicate p 0 ++ [3]) ≠
        encode (fun t : Nat => t) (fun h v : Nat => h + v + 1) 0 [3]) := by
  constructor
  · intro V H emb step h0 L row
    unfold padSeq
    by_cases h : L ≤ row.length
    · rw [if_pos h]
      have h1 : L - row.length = 0 := by omega
      rw [h1]
      simp [encode]
    · rw [if_neg h]
      have h2 : row.length - L = 0 := by omega
      rw [h2]
      simp [encode, List.foldl_append]
  · exact ⟨1, by decide⟩

end Sentiment
